import Mathlib

/-!
# ExigeOS — verification of the hardware-abstraction core

Shallow embedding of the ExigeOS kernel subsystems that the specification
claims speak about: the PIT-based timing loop and PC-speaker driver
(`sound.c`), the VGA text console (`vga.c`), the serial console
(`vga_rpi3.c`), and the two line-input drivers (`keyboard.c`,
`keyboard_rpi3.c`).

Machine integers are modelled as `Nat` with explicit `% 2^w` reductions
where the C code relies on fixed-width wraparound.  Strings are modelled
as lists of byte values (`List Nat`).  Hardware reads are passed in as
explicit arguments, hardware writes are returned as explicit traces, so
every definition is executable.
-/

namespace ExigeOS

/-! ## PIT timing (`sound.c`)

`pit0_read` latches and returns the 16-bit channel 0 counter; in the
embedding each successive reading is supplied as an element of a sample
list, so `delay_ms` becomes a function of the requested duration and of
the sequence of counter samples observed while polling. -/

/-- PIT input clock frequency in Hz (`PIT_BASE_FREQ` in `sound.c`). -/
def PIT_BASE_FREQ : Nat := 1193180

/-- Ticks per millisecond used by `delay_ms` (`1193UL` in `sound.c`). -/
def TICKS_PER_MS : Nat := 1193

/-- The per-step elapsed delta computed inside `delay_ms`'s loop:
`(prev >= curr) ? (prev - curr) : (uint16_t)(prev + (65536U - curr))`.
The `uint16_t` cast is the `% 65536`. -/
def pitDelta (prev curr : Nat) : Nat :=
  if curr ≤ prev then prev - curr else (prev + (65536 - curr)) % 65536

/-- The polling loop of `delay_ms`: `tn` is `ticks_needed`, `prev` the
previous counter sample, `elapsed` the 32-bit accumulator, `total` a
ghost field recording the exact (unwrapped) sum of the per-step deltas.
Each list element is the next `pit0_read()` result; an exhausted list
means the loop is still polling (`none`). -/
def delayLoop (tn : Nat) : Nat → Nat → Nat → List Nat → Option (Nat × Nat)
  | _, elapsed, total, [] =>
      if elapsed < tn then none else some (elapsed, total)
  | prev, elapsed, total, curr :: rest =>
      if elapsed < tn then
        delayLoop tn curr ((elapsed + pitDelta prev curr) % 4294967296)
          (total + pitDelta prev curr) rest
      else some (elapsed, total)

/-- `delay_ms(ms)` over an explicit sample sequence.  The first sample is
the initial `pit0_read()`; `ticks_needed = ms * 1193UL` is 32-bit
arithmetic, hence the `% 2^32`.  Returns the final `(elapsed, total)`
pair when the loop exits within the supplied samples. -/
def delay_ms (ms : Nat) (samples : List Nat) : Option (Nat × Nat) :=
  match samples with
  | [] => none
  | s0 :: rest => delayLoop (ms * TICKS_PER_MS % 4294967296) s0 0 0 rest

/-! ## PC speaker driver (`sound.c`) -/

/-- The note table of `sound.c` (solfège name as ASCII bytes, frequency). -/
def notes : List (List Nat × Nat) :=
  [([100, 111], 262),        -- "do"
   ([114, 101], 294),        -- "re"
   ([109, 105], 330),        -- "mi"
   ([102, 97], 349),         -- "fa"
   ([115, 111, 108], 392),   -- "sol"
   ([108, 97], 440),         -- "la"
   ([115, 105], 494)]        -- "si"

/-- Value written to port 0x61 by `sound_play` to open the speaker gate:
`tmp | 0x03` where `tmp` is the byte just read from the port. -/
def sound_play_gate_value (tmp : Nat) : Nat := (tmp ||| 3) % 256

/-- Value written to port 0x61 by `sound_stop`: `tmp & ~0x03`, i.e.
`tmp & 0xFC` after the `uint8_t` truncation. -/
def sound_stop_value (tmp : Nat) : Nat := tmp &&& 252

/-- Port-write trace of `pit_set_divisor`: control word to 0x43, then
divisor low byte and high byte to 0x42. -/
def pit_set_divisor (divisor : Nat) : List (Nat × Nat) :=
  [(67, 182), (66, divisor % 256), (66, divisor / 256 % 256)]

/-- Port-write trace of `sound_stop`, given the byte read from 0x61. -/
def sound_stop_writes (tmp : Nat) : List (Nat × Nat) :=
  [(97, sound_stop_value tmp)]

/-- Port-write trace of `sound_play freq_hz duration_ms`.  `tmp1` and
`tmp2` are the two bytes read from port 0x61 (gate enable, then the
read inside the final `sound_stop`).  A zero frequency is a rest:
`sound_stop` then `delay_ms`. -/
def sound_play_writes (freq_hz : Nat) (tmp1 tmp2 : Nat) : List (Nat × Nat) :=
  if freq_hz = 0 then sound_stop_writes tmp1
  else
    pit_set_divisor (PIT_BASE_FREQ / freq_hz % 65536) ++
      [(97, sound_play_gate_value tmp1)] ++ sound_stop_writes tmp2

/-- Trace of `sound_play(freq, duration)` calls, abstracted to the
`(freq_hz, duration_ms)` pairs — the observable tone/rest events. -/
def soundEvent := Nat × Nat

/-- `sound_note(name)`: linear search of the note table (the C sentinel
loop with `str_eq_sound` equality); the first match plays for 450 ms,
unknown names are silently ignored. -/
def sound_note (name : List Nat) : List (Nat × Nat) :=
  match notes.find? (fun e => e.1 = name) with
  | some e => [(e.2, 450)]
  | none => []

/-- The tokenizing loop of `sound_play_sequence`: `tok` is the token
buffer (`token[0..ti)` in the C code, at most 7 bytes).  On a space or
at end of input a non-empty token is played followed by an 80 ms rest;
bytes beyond the 7th of a token are dropped. -/
def soundSeqLoop : List Nat → List Nat → List (Nat × Nat)
  | tok, [] => if tok.isEmpty then [] else sound_note tok ++ [(0, 80)]
  | tok, c :: rest =>
      if c = 32 then
        (if tok.isEmpty then [] else sound_note tok ++ [(0, 80)]) ++
          soundSeqLoop [] rest
      else if tok.length < 7 then soundSeqLoop (tok ++ [c]) rest
      else soundSeqLoop tok rest

/-- `sound_play_sequence(str)`: the sequence of `(freq, duration)`
events produced for the byte string `s`. -/
def sound_play_sequence (s : List Nat) : List (Nat × Nat) :=
  soundSeqLoop [] s

/-- Modelled from the spec: "tokenizes on the space character" — the
space-separated fields of the input, empty fields included, used as the
specification-side description to compare `sound_play_sequence` against. -/
def specTokens : List Nat → List (List Nat)
  | [] => [[]]
  | c :: rest =>
      if c = 32 then [] :: specTokens rest
      else
        match specTokens rest with
        | [] => [[c]]
        | t :: ts => (c :: t) :: ts

/-- Modelled from the spec: the events one token contributes — nothing
for an empty token, otherwise the token (truncated to 7 bytes) played
via `sound_note` followed by one 80 ms rest. -/
def noteEmit (t : List Nat) : List (Nat × Nat) :=
  if t.isEmpty then [] else sound_note (t.take 7) ++ [(0, 80)]

/-! ## VGA text console (`vga.c`)

The framebuffer is the 2000-cell `VGA_MEM` array, each cell the 16-bit
value `(attribute << 8) | character`; the driver state is that array
plus the software cursor and the active attribute byte.  Writes to the
hardware cursor registers (`vga_update_cursor`) change no modelled
state. -/

def VGA_WIDTH : Nat := 80
def VGA_HEIGHT : Nat := 25

structure VGAState where
  mem : List Nat
  cursor_row : Nat
  cursor_col : Nat
  current_color : Nat
deriving DecidableEq

/-- `vga_entry(c, color)` packs `(uint8_t)c | ((uint16_t)color << 8)`;
the two fields are disjoint so the `|` is an addition. -/
def vga_entry (c color : Nat) : Nat := c % 256 + color % 256 * 256

/-- `vga_set_color(fg, bg)`: `current_color = (bg << 4) | (fg & 0x0F)`,
truncated to `uint8_t` on assignment. -/
def vga_set_color (fg bg : Nat) (s : VGAState) : VGAState :=
  { s with current_color := ((bg % 256) <<< 4 ||| (fg % 256 &&& 15)) % 256 }

/-- `vga_clear()`: fill all `VGA_WIDTH * VGA_HEIGHT` cells with a space
under the current attribute and reset the cursor to the origin. -/
def vga_clear (s : VGAState) : VGAState :=
  { s with
    mem := List.replicate (VGA_WIDTH * VGA_HEIGHT) (vga_entry 32 s.current_color),
    cursor_row := 0, cursor_col := 0 }

/-- `vga_init()`: reset the attribute to light-grey-on-black (0x07) and
clear. -/
def vga_init (s : VGAState) : VGAState :=
  vga_clear { s with current_color := 7 }

/-- `vga_scroll()`: the ascending in-place copy moves every cell of
rows 1..24 up one row (each read happens before that cell is
overwritten, so it reads the pre-scroll contents — elementwise this is
`drop VGA_WIDTH`), blanks the last row, and parks the cursor on it. -/
def vga_scroll (s : VGAState) : VGAState :=
  { s with
    mem := s.mem.drop VGA_WIDTH ++
      List.replicate VGA_WIDTH (vga_entry 32 s.current_color),
    cursor_row := VGA_HEIGHT - 1 }

/-- `vga_putchar(c)`: newline, carriage return and backspace move the
cursor; any other byte is stored at the cursor cell and advances it,
wrapping past the last column; a cursor past the last row triggers
`vga_scroll`. -/
def vga_putchar (c : Nat) (s : VGAState) : VGAState :=
  let s1 :=
    if c = 10 then
      { s with cursor_col := 0, cursor_row := s.cursor_row + 1 }
    else if c = 13 then
      { s with cursor_col := 0 }
    else if c = 8 then
      if 0 < s.cursor_col then
        { s with
          cursor_col := s.cursor_col - 1,
          mem := s.mem.set (s.cursor_row * VGA_WIDTH + (s.cursor_col - 1))
            (vga_entry 32 s.current_color) }
      else s
    else
      let m := s.mem.set (s.cursor_row * VGA_WIDTH + s.cursor_col)
        (vga_entry c s.current_color)
      if VGA_WIDTH ≤ s.cursor_col + 1 then
        { s with mem := m, cursor_col := 0, cursor_row := s.cursor_row + 1 }
      else
        { s with mem := m, cursor_col := s.cursor_col + 1 }
  if VGA_HEIGHT ≤ s1.cursor_row then vga_scroll s1 else s1

/-- `vga_print(str)`: write each byte in order via `vga_putchar`. -/
def vga_print (cs : List Nat) (s : VGAState) : VGAState :=
  cs.foldl (fun t c => vga_putchar c t) s

/-- `vga_newline()`. -/
def vga_newline (s : VGAState) : VGAState := vga_putchar 10 s

/-- The digit buffer built by `vga_print_int`'s divide-by-ten loop,
least significant digit first. -/
def natDigitsRev : Nat → List Nat
  | 0 => []
  | n + 1 => (48 + (n + 1) % 10) :: natDigitsRev ((n + 1) / 10)
decreasing_by exact Nat.div_lt_self (Nat.succ_pos n) (by omega)

/-- `vga_print_int(n)`: `"0"` for zero, otherwise the buffered digits
printed most significant first. -/
def vga_print_int (n : Nat) (s : VGAState) : VGAState :=
  if n = 0 then vga_putchar 48 s else vga_print (natDigitsRev n).reverse s

/-- The two bytes `vga_print_int2(n)` passes to `vga_putchar`:
`'0' + (n / 10)` and `'0' + (n % 10)`. -/
def vga_print_int2_digits (n : Nat) : List Nat := [48 + n / 10, 48 + n % 10]

/-- `vga_print_int2(n)`: exactly two zero-padded decimal digits. -/
def vga_print_int2 (n : Nat) (s : VGAState) : VGAState :=
  vga_print (vga_print_int2_digits n) s

/-! ## Serial console (`vga_rpi3.c`)

Output is the sequence of bytes pushed into the UART TX FIFO. -/

/-- `uart_puts(s)`: each byte is sent through `uart_putchar` (which
truncates to `uint8_t`), with a `'\r'` inserted before every `'\n'`. -/
def uart_puts : List Nat → List Nat
  | [] => []
  | c :: r => (if c = 10 then [13] else []) ++ [c % 256] ++ uart_puts r

/-- Serial `vga_putchar(c)`: CR before LF, then the byte itself. -/
def vga_putchar_rpi3 (c : Nat) : List Nat :=
  (if c = 10 then [13] else []) ++ [c % 256]

/-- Serial `vga_print_int2(n)`: two direct `uart_putchar` calls. -/
def vga_print_int2_rpi3 (n : Nat) : List Nat :=
  [(48 + n / 10) % 256, (48 + n % 10) % 256]

/-- The ANSI foreground escape strings of `ansi_fg[16]`, as byte
lists (`"\033[30m"` etc.). -/
def ansi_fg : List (List Nat) :=
  [[27, 91, 51, 48, 109], [27, 91, 51, 52, 109], [27, 91, 51, 50, 109],
   [27, 91, 51, 54, 109], [27, 91, 51, 49, 109], [27, 91, 51, 53, 109],
   [27, 91, 51, 51, 109], [27, 91, 51, 55, 109], [27, 91, 57, 48, 109],
   [27, 91, 57, 52, 109], [27, 91, 57, 50, 109], [27, 91, 57, 54, 109],
   [27, 91, 57, 49, 109], [27, 91, 57, 53, 109], [27, 91, 57, 51, 109],
   [27, 91, 57, 55, 109]]

/-- Serial `vga_set_color(fg, bg)`: `bg` is cast to void; a foreground
index below 16 selects an escape string, anything else sends nothing. -/
def vga_set_color_rpi3 (fg bg : Nat) : List Nat :=
  if fg < 16 then uart_puts (ansi_fg.getD fg []) else []

/-! ## Line input (`keyboard.c`, `keyboard_rpi3.c`)

`read_line` is modelled over the list of characters delivered by
`keyboard_getchar`; the result is `(line, returned length, bytes echoed
to the console)`, or `none` when the input runs out while the call is
still blocked polling. -/

/-- The accumulation loop of the PS/2 `keyboard_readline`. -/
def kbLineLoop (maxLen : Nat) : List Nat → List Nat → List Nat →
    Option (List Nat × Nat × List Nat)
  | _, _, [] => none
  | buf, out, c :: rest =>
      if c = 10 then some (buf, buf.length, out ++ [10])
      else if c = 8 then
        if 0 < buf.length then kbLineLoop maxLen buf.dropLast (out ++ [8]) rest
        else kbLineLoop maxLen buf out rest
      else if buf.length < maxLen - 1 then
        kbLineLoop maxLen (buf ++ [c]) (out ++ [c]) rest
      else kbLineLoop maxLen buf out rest

/-- PS/2 `keyboard_readline(buf, max)`. -/
def keyboard_readline (maxLen : Nat) (input : List Nat) :
    Option (List Nat × Nat × List Nat) :=
  kbLineLoop maxLen [] [] input

/-- UART `keyboard_getchar()`: the raw received byte, unfiltered
(`*UART_DR & 0xFF`). -/
def keyboard_getchar_rpi3 (dr : Nat) : Nat := dr &&& 255

/-- The accumulation loop of the UART `keyboard_readline`: CR or LF
ends the line, BS or DEL erases (echoing backspace-space-backspace),
and a byte is stored and echoed only when it is ≥ 32 and the buffer has
room. -/
def kbLineLoopRpi3 (maxLen : Nat) : List Nat → List Nat → List Nat →
    Option (List Nat × Nat × List Nat)
  | _, _, [] => none
  | buf, out, c :: rest =>
      if c = 13 ∨ c = 10 then some (buf, buf.length, out ++ [10])
      else if c = 8 ∨ c = 127 then
        if 0 < buf.length then
          kbLineLoopRpi3 maxLen buf.dropLast (out ++ [8, 32, 8]) rest
        else kbLineLoopRpi3 maxLen buf out rest
      else if 32 ≤ c ∧ buf.length < maxLen - 1 then
        kbLineLoopRpi3 maxLen (buf ++ [c]) (out ++ [c]) rest
      else kbLineLoopRpi3 maxLen buf out rest

/-- UART `keyboard_readline(buf, max)`. -/
def keyboard_readline_rpi3 (maxLen : Nat) (input : List Nat) :
    Option (List Nat × Nat × List Nat) :=
  kbLineLoopRpi3 maxLen [] [] input

/-! ## Derived console notions -/

/-- A printable byte: at least the space character, below DEL — in
particular not `'\n'`, `'\r'` or `'\b'`. -/
def Printable (c : Nat) : Prop := 32 ≤ c ∧ c ≤ 126

/-- Console state right after `vga_init` from any power-on state. -/
def vgaStart : VGAState := vga_init ⟨[], 0, 0, 0⟩

/-- The blank cell under the default attribute 0x07. -/
def blank7 : Nat := vga_entry 32 7

/-- Screen contents after the first `cs.length ≤ 2000` printable bytes:
their cells in order, the rest still blank. -/
def overlay (cs : List Nat) : List Nat :=
  cs.map (fun c => vga_entry c 7) ++
    List.replicate (2000 - cs.length) blank7

/-- The cursor denotes a valid cell. -/
def cursorValid (s : VGAState) : Prop :=
  s.cursor_row < VGA_HEIGHT ∧ s.cursor_col < VGA_WIDTH

/-- Does row `r` of a screen hold any non-space character? -/
def rowHasContent (mem : List Nat) (r : Nat) : Bool :=
  ((mem.drop (r * VGA_WIDTH)).take VGA_WIDTH).any (fun e => e % 256 ≠ 32)

/-- How many of the 25 rows hold a non-space character. -/
def contentRowCount (mem : List Nat) : Nat :=
  (List.range VGA_HEIGHT).countP (rowHasContent mem)

/-- A concrete stream of `rows * cols + 1 = 2001` printable bytes
(cycling through the 94 printable ASCII codes 33–126). -/
def c5List : List Nat := (List.range 2001).map (fun i => 33 + i % 94)

/-- A concrete stream of `cols + 1 = 81` printable bytes. -/
def c5ShortList : List Nat := (List.range 81).map (fun i => 33 + i % 94)

/-! ## Timing lemmas -/

theorem specTokens_ne_nil (s : List Nat) : specTokens s ≠ [] := by
  cases s with
  | nil => simp [specTokens]
  | cons c rest =>
      simp only [specTokens]
      split
      · simp
      · cases h : specTokens rest <;> simp

theorem delayLoop_exit (tn : Nat) :
    ∀ (xs : List Nat) (prev e0 t0 e t : Nat), e0 = t0 % 4294967296 →
      delayLoop tn prev e0 t0 xs = some (e, t) →
      e = t % 4294967296 ∧ tn ≤ e := by
  intro xs
  induction xs with
  | nil =>
      intro prev e0 t0 e t hinv h
      simp only [delayLoop] at h
      split at h
      · exact absurd h (by simp)
      · obtain ⟨he, ht⟩ := Prod.mk.injEq .. ▸ Option.some.injEq .. ▸ h
        subst he; subst ht
        exact ⟨hinv, by omega⟩
  | cons curr rest ih =>
      intro prev e0 t0 e t hinv h
      simp only [delayLoop] at h
      split at h
      · refine ih curr _ _ e t ?_ h
        subst hinv
        exact (Nat.mod_add_mod t0 4294967296 (pitDelta prev curr))
      · obtain ⟨he, ht⟩ := Prod.mk.injEq .. ▸ Option.some.injEq .. ▸ h
        subst he; subst ht
        exact ⟨hinv, by omega⟩

theorem soundSeqLoop_spec :
    ∀ (s tok : List Nat), tok.length ≤ 7 →
      soundSeqLoop tok s =
        match specTokens s with
        | [] => []
        | t :: ts => noteEmit (tok ++ t) ++ ts.flatMap noteEmit := by
  intro s
  induction s with
  | nil =>
      intro tok htok
      simp only [soundSeqLoop, specTokens, noteEmit, List.append_nil,
        List.flatMap_nil, List.append_nil, List.take_of_length_le htok]
  | cons c rest ih =>
      intro tok htok
      simp only [soundSeqLoop, specTokens]
      by_cases hc : c = 32
      · simp only [if_pos hc]
        rw [ih [] (by simp)]
        cases h : specTokens rest with
        | nil => exact absurd h (specTokens_ne_nil rest)
        | cons t ts =>
            simp only [List.nil_append, List.flatMap_cons, List.append_nil,
              noteEmit, List.take_of_length_le htok, List.append_assoc]
      · simp only [if_neg hc]
        by_cases hlen : tok.length < 7
        · simp only [if_pos hlen]
          rw [ih (tok ++ [c]) (by simp; omega)]
          cases h : specTokens rest with
          | nil => exact absurd h (specTokens_ne_nil rest)
          | cons t ts => simp [List.append_assoc]
        · have h7 : tok.length = 7 := by omega
          simp only [if_neg hlen]
          rw [ih tok htok]
          cases h : specTokens rest with
          | nil => exact absurd h (specTokens_ne_nil rest)
          | cons t ts =>
              have htake : ∀ u : List Nat, (tok ++ u).take 7 = tok := by
                intro u
                rw [← h7, List.take_left]
              have hne : ¬ (tok ++ t).isEmpty = true := by
                simp [List.isEmpty_iff, ← List.length_eq_zero]
                omega
              have hne' : ¬ (tok ++ c :: t).isEmpty = true := by
                simp [List.isEmpty_iff]
              simp only [noteEmit, if_neg hne, if_neg hne', htake]

/-! ## Claim theorems: timing and audio -/

/-- C1 (amended): for `previous, new` in `[0, 65535]`, the per-step
elapsed delta of `delay_ms` equals `previous - new` when
`new ≤ previous` (so `0` when the two samples are equal, as in
`previous = 0, new = 0`), and `previous + (65536 - new)` only when
`new > previous`. -/
theorem C1_wraparound_delta (prev curr : Nat) (hp : prev < 65536)
    (hc : curr < 65536) :
    pitDelta prev curr =
      if curr ≤ prev then prev - curr else prev + (65536 - curr) := by
  unfold pitDelta
  split
  · rfl
  · exact Nat.mod_eq_of_lt (by omega)

/-- C1 counterexample: at `previous = 0, new = 0` the code's delta is
`0`, not `previous + (65536 - new) = 65536` as the claim's boundary
case asserts. -/
theorem C1_equal_sample_counterexample :
    pitDelta 0 0 = 0 ∧ pitDelta 0 0 ≠ 0 + (65536 - 0) := by decide

/-- C1 witness: the amended law evaluated at `previous = 5,
new = 65530` (a genuine wraparound step). -/
theorem C1_wraparound_delta_witness :
    (5 : Nat) < 65536 ∧ (65530 : Nat) < 65536 ∧
    pitDelta 5 65530 =
      if 65530 ≤ 5 then 5 - 65530 else 5 + (65536 - 65530) :=
  ⟨by decide, by decide, C1_wraparound_delta 5 65530 (by decide) (by decide)⟩

/-- C2 (amended): `ticks_per_ms` is the counter frequency divided by
1000 rounded down, and for every duration `ms` whose tick target
`ms * ticks_per_ms` fits in the 32-bit accumulator, any returning run
of `delay_ms` has accumulated a wraparound-corrected tick total of at
least `ms * ticks_per_ms`. -/
theorem C2_delay_lower_bound :
    TICKS_PER_MS = PIT_BASE_FREQ / 1000 ∧
    ∀ (ms : Nat) (samples : List Nat) (e t : Nat),
      ms * TICKS_PER_MS < 4294967296 →
      delay_ms ms samples = some (e, t) →
      ms * TICKS_PER_MS ≤ t := by
  refine ⟨rfl, ?_⟩
  intro ms samples e t hms h
  match samples with
  | [] => simp [delay_ms] at h
  | s0 :: rest =>
      simp only [delay_ms] at h
      rw [Nat.mod_eq_of_lt hms] at h
      obtain ⟨he, hle⟩ :=
        delayLoop_exit (ms * TICKS_PER_MS) rest s0 0 0 e t (by simp) h
      calc ms * TICKS_PER_MS ≤ e := hle
        _ = t % 4294967296 := he
        _ ≤ t := Nat.mod_le t 4294967296

/-- C2 counterexample: for `ms = 3600480` the 32-bit target
`ms * 1193` wraps to `405344`, and a run whose samples wrap the counter
seven times returns after accumulating only `405344` ticks — far less
than `ms * ticks_per_ms`, refuting the claim for unrestricted `ms`. -/
theorem C2_overflow_counterexample :
    delay_ms 3600480 [0, 1, 2, 3, 4, 5, 6, 53408] =
      some (405344, 405344) ∧
    405344 < 3600480 * TICKS_PER_MS := by decide

/-- C2 witness: a 1 ms delay over a sample pair that counts down by
exactly 1193 ticks. -/
theorem C2_delay_lower_bound_witness :
    1 * TICKS_PER_MS < 4294967296 ∧
    delay_ms 1 [1193, 0] = some (1193, 1193) ∧
    1 * TICKS_PER_MS ≤ 1193 :=
  ⟨by decide, by decide,
    C2_delay_lower_bound.2 1 [1193, 0] 1193 1193 (by decide) (by decide)⟩

/-- C3 (amended): `play_sequence("do re")` issues exactly two tone
calls, 262 Hz then 294 Hz, each of 450 ms, separated by one 80 ms
silence and followed by one trailing 80 ms silence after the last note
(the code emits the articulation rest after every note, the last one
included); in general the event trace is exactly: for every non-empty
space-delimited token in order, the token truncated to 7 bytes passed
to `sound_note` followed by one 80 ms rest, with empty tokens
contributing no note and no rest. -/
theorem C3_play_sequence_trace :
    sound_play_sequence [100, 111, 32, 114, 101] =
      [(262, 450), (0, 80), (294, 450), (0, 80)] ∧
    ∀ s : List Nat, sound_play_sequence s = (specTokens s).flatMap noteEmit := by
  constructor
  · decide
  · intro s
    rw [sound_play_sequence, soundSeqLoop_spec s [] (by simp)]
    cases h : specTokens s with
    | nil => exact absurd h (specTokens_ne_nil s)
    | cons t ts => simp

/-- C3 counterexample: the trace of `play_sequence("do re")` is not the
three-event trace the claim describes — it ends with a trailing 80 ms
silence after the last note. -/
theorem C3_trailing_rest_counterexample :
    sound_play_sequence [100, 111, 32, 114, 101] ≠
      [(262, 450), (0, 80), (294, 450)] ∧
    (sound_play_sequence [100, 111, 32, 114, 101]).getLast? =
      some (0, 80) := by decide

set_option maxRecDepth 10000 in
/-- C7: the speaker-gate writes are read-modify-write on port 0x61 and
touch only bits 0 and 1: `sound_play`'s gate enable sets exactly those
two bits and `sound_stop` clears exactly those two bits, leaving bits
2–7 (`v / 4` of the byte just read) unchanged; on the port-write trace
of a tone, the only writes to port 0x61 are exactly these two values. -/
theorem C7_gate_read_modify_write :
    (∀ v, v < 256 →
      sound_play_gate_value v % 4 = 3 ∧
      sound_play_gate_value v / 4 = v / 4 ∧
      sound_stop_value v % 4 = 0 ∧
      sound_stop_value v / 4 = v / 4) ∧
    (∀ f t1 t2, f ≠ 0 →
      (sound_play_writes f t1 t2).filter (fun w => w.1 = 97) =
        [(97, sound_play_gate_value t1), (97, sound_stop_value t2)]) ∧
    (∀ t, sound_stop_writes t = [(97, sound_stop_value t)]) := by
  refine ⟨?_, ?_, fun t => rfl⟩
  · decide
  · intro f t1 t2 hf
    simp [sound_play_writes, if_neg hf, pit_set_divisor, sound_stop_writes,
      List.filter]

/-- C7 witness: the gate bit facts evaluated at the byte 0xAC. -/
theorem C7_gate_read_modify_write_witness :
    (172 : Nat) < 256 ∧
    (sound_play_gate_value 172 % 4 = 3 ∧
     sound_play_gate_value 172 / 4 = 172 / 4 ∧
     sound_stop_value 172 % 4 = 0 ∧
     sound_stop_value 172 / 4 = 172 / 4) :=
  ⟨by decide, C7_gate_read_modify_write.1 172 (by decide)⟩

/-! ## Console lemmas -/

theorem take_append_of_le {α : Type} (n : Nat) (xs ys : List α)
    (h : n ≤ xs.length) : (xs ++ ys).take n = xs.take n := by
  conv_lhs => rw [← List.take_append_drop n xs]
  rw [List.append_assoc, List.take_left' (by simp [List.length_take]; omega)]

theorem drop_append_of_le {α : Type} (n : Nat) (xs ys : List α)
    (h : n ≤ xs.length) : (xs ++ ys).drop n = xs.drop n ++ ys := by
  conv_lhs => rw [← List.take_append_drop n xs]
  rw [List.append_assoc, List.drop_left' (by simp [List.length_take]; omega)]

theorem overlay_set (l : List Nat) (a : Nat) (h : l.length ≤ 1999) :
    (overlay l).set l.length (vga_entry a 7) = overlay (l ++ [a]) := by
  unfold overlay
  rw [List.set_append_right _ _ (by simp)]
  simp only [List.length_map, Nat.sub_self]
  have h1 : 2000 - l.length = (1999 - l.length) + 1 := by omega
  rw [h1, List.replicate_succ, List.set_cons_zero]
  simp only [List.map_append, List.map_cons, List.map_nil, List.append_assoc,
    List.singleton_append, List.length_append, List.length_cons,
    List.length_nil]
  have h2 : 2000 - (l.length + 0 + 1) = 1999 - l.length := by omega
  rw [h2]

theorem vga_print_fill (cs : List Nat) (hp : ∀ c ∈ cs, Printable c)
    (hlen : cs.length ≤ 1999) :
    vga_print cs vgaStart =
      ⟨overlay cs, cs.length / 80, cs.length % 80, 7⟩ := by
  induction cs using List.reverseRecOn with
  | nil =>
      show vgaStart = _
      simp only [vgaStart, vga_init, vga_clear, overlay, blank7,
        VGA_WIDTH, VGA_HEIGHT, List.map_nil, List.length_nil,
        List.nil_append]
  | append_singleton l a ih =>
      have hl : l.length ≤ 1999 := by
        simp only [List.length_append, List.length_cons, List.length_nil] at hlen
        omega
      have hl2 : l.length ≤ 1998 := by
        simp only [List.length_append, List.length_cons, List.length_nil] at hlen
        omega
      have ha : Printable a := hp a (by simp)
      obtain ⟨ha1, ha2⟩ := ha
      rw [vga_print] at *
      rw [List.foldl_append]
      rw [ih (fun c hc => hp c (by simp [hc])) hl]
      simp only [List.foldl_cons, List.foldl_nil, List.length_append,
        List.length_cons, List.length_nil]
      simp only [vga_putchar, VGA_WIDTH, VGA_HEIGHT]
      rw [if_neg (show ¬ a = 10 by omega), if_neg (show ¬ a = 13 by omega),
        if_neg (show ¬ a = 8 by omega)]
      rw [show l.length / 80 * 80 + l.length % 80 = l.length by omega]
      by_cases hw : 80 ≤ l.length % 80 + 1
      · rw [if_pos hw]
        dsimp only
        rw [if_neg (show ¬ 25 ≤ l.length / 80 + 1 by omega)]
        simp only [VGAState.mk.injEq, and_true]
        exact ⟨overlay_set l a hl, by omega, by omega⟩
      · rw [if_neg hw]
        dsimp only
        rw [if_neg (show ¬ 25 ≤ l.length / 80 by omega)]
        simp only [VGAState.mk.injEq, and_true]
        exact ⟨overlay_set l a hl, by omega, by omega⟩

theorem vga_putchar_at_last_cell (a : Nat) (m : List Nat)
    (ha1 : 32 ≤ a) (ha2 : a ≤ 126) (hm : m.length = 2000) :
    vga_putchar a ⟨m, 24, 79, 7⟩ =
      ⟨(m.set 1999 (vga_entry a 7)).drop 80 ++ List.replicate 80 blank7,
        24, 0, 7⟩ := by
  simp only [vga_putchar, VGA_WIDTH, VGA_HEIGHT]
  rw [if_neg (show ¬ a = 10 by omega), if_neg (show ¬ a = 13 by omega),
    if_neg (show ¬ a = 8 by omega)]
  rw [if_pos (show 80 ≤ 79 + 1 by norm_num)]
  rw [if_pos (show 25 ≤ 24 + 1 by norm_num)]
  simp only [vga_scroll, blank7, VGA_WIDTH, VGA_HEIGHT]

theorem vga_putchar_at_row_start (b : Nat) (m : List Nat)
    (hb1 : 32 ≤ b) (hb2 : b ≤ 126) :
    vga_putchar b ⟨m, 24, 0, 7⟩ =
      ⟨m.set 1920 (vga_entry b 7), 24, 1, 7⟩ := by
  simp only [vga_putchar, VGA_WIDTH, VGA_HEIGHT]
  rw [if_neg (show ¬ b = 10 by omega), if_neg (show ¬ b = 13 by omega),
    if_neg (show ¬ b = 8 by omega)]
  rw [if_neg (show ¬ 80 ≤ 0 + 1 by norm_num)]
  rw [if_neg (show ¬ 25 ≤ 24 by norm_num)]

theorem vga_print_2001 (cs : List Nat) (hp : ∀ c ∈ cs, Printable c)
    (hlen : cs.length = 2001) :
    vga_print cs vgaStart =
      ⟨(cs.drop 80).map (fun c => vga_entry c 7) ++ List.replicate 79 blank7,
        24, 1, 7⟩ := by
  have h2 : (cs.drop 1999).length = 2 := by simp [hlen]
  obtain ⟨a, b, hab⟩ := List.length_eq_two.mp h2
  have hcs : cs = cs.take 1999 ++ [a, b] := by
    conv_lhs => rw [← List.take_append_drop 1999 cs]
    rw [hab]
  have h1999 : (cs.take 1999).length = 1999 := by simp [hlen]
  have hpl : ∀ c ∈ cs.take 1999, Printable c :=
    fun c hc => hp c (by rw [hcs]; exact List.mem_append_left _ hc)
  obtain ⟨ha1, ha2⟩ : Printable a := hp a (by rw [hcs]; simp)
  obtain ⟨hb1, hb2⟩ : Printable b := hp b (by rw [hcs]; simp)
  have hfill := vga_print_fill (cs.take 1999) hpl (by rw [h1999])
  rw [h1999] at hfill
  norm_num at hfill
  have hover : (overlay (cs.take 1999)).length = 2000 := by
    simp only [overlay, List.length_append, List.length_map,
      List.length_replicate]
    omega
  rw [hcs, vga_print, List.foldl_append]
  simp only [List.foldl_cons, List.foldl_nil]
  rw [show List.foldl (fun t c => vga_putchar c t) vgaStart (cs.take 1999) =
    vga_print (cs.take 1999) vgaStart from rfl]
  rw [hfill]
  rw [vga_putchar_at_last_cell a _ ha1 ha2 hover]
  rw [vga_putchar_at_row_start b _ hb1 hb2]
  have hmem1 : (overlay (cs.take 1999)).set 1999 (vga_entry a 7) =
      (cs.take 1999 ++ [a]).map (fun c => vga_entry c 7) := by
    have ho := overlay_set (cs.take 1999) a (le_of_eq h1999)
    rw [h1999] at ho
    rw [ho]
    have hL : (cs.take 1999 ++ [a]).length = 2000 := by
      rw [List.length_append, h1999]
      rfl
    simp only [overlay, hL]
    norm_num
  rw [hmem1, ← List.map_drop]
  rw [drop_append_of_le 80 (cs.take 1999) [a] (by rw [h1999]; norm_num)]
  rw [drop_append_of_le 80 (cs.take 1999) [a, b] (by rw [h1999]; norm_num)]
  rw [List.set_append_right _ _ (by
    simp only [List.length_map, List.length_append, List.length_drop,
      List.length_cons, List.length_nil, h1999]
    omega)]
  simp only [VGAState.mk.injEq, and_true]
  have hidx0 : (1920 : Nat) -
      (((cs.take 1999).drop 80 ++ [a]).map (fun c => vga_entry c 7)).length = 0 := by
    simp only [List.length_map, List.length_append, List.length_drop,
      List.length_cons, List.length_nil, h1999]
  rw [hidx0, show List.replicate 80 blank7 = blank7 :: List.replicate 79 blank7
    from rfl, List.set_cons_zero]
  simp [List.map_append, List.append_assoc]

theorem vga_putchar_valid (c : Nat) (s : VGAState) (h : cursorValid s) :
    cursorValid (vga_putchar c s) := by
  obtain ⟨hr, hc⟩ := h
  simp only [cursorValid, vga_putchar, vga_scroll, VGA_WIDTH, VGA_HEIGHT] at *
  split_ifs <;> constructor <;> simp_all <;> omega

theorem vga_print_valid (cs : List Nat) (s : VGAState) (h : cursorValid s) :
    cursorValid (vga_print cs s) := by
  induction cs generalizing s with
  | nil => exact h
  | cons c rest ih => exact ih (vga_putchar c s) (vga_putchar_valid c s h)

theorem vga_clear_valid (s : VGAState) : cursorValid (vga_clear s) := by
  exact ⟨by simp [vga_clear, VGA_HEIGHT], by simp [vga_clear, VGA_WIDTH]⟩

theorem vga_init_valid (s : VGAState) : cursorValid (vga_init s) :=
  vga_clear_valid _

theorem vga_print_int_valid (n : Nat) (s : VGAState) (h : cursorValid s) :
    cursorValid (vga_print_int n s) := by
  unfold vga_print_int
  split
  · exact vga_putchar_valid _ _ h
  · exact vga_print_valid _ _ h

/-- C4: every console operation preserves the cursor-validity invariant
`cursor_row < rows ∧ cursor_col < cols`; writing a printable byte in
the last column wraps the cursor to column 0 of the next row, and past
the last cell it triggers the scroll, which shifts every row up by one,
blanks the last row, and leaves the cursor on the last row. -/
theorem C4_cursor_invariant :
    (∀ s, cursorValid (vga_init s)) ∧
    (∀ s, cursorValid (vga_clear s)) ∧
    (∀ c s, cursorValid s → cursorValid (vga_putchar c s)) ∧
    (∀ cs s, cursorValid s → cursorValid (vga_print cs s)) ∧
    (∀ s, cursorValid s → cursorValid (vga_newline s)) ∧
    (∀ n s, cursorValid s → cursorValid (vga_print_int n s)) ∧
    (∀ n s, cursorValid s → cursorValid (vga_print_int2 n s)) ∧
    (∀ c s, 32 ≤ c → c ≤ 126 → s.cursor_col = VGA_WIDTH - 1 →
      s.cursor_row < VGA_HEIGHT - 1 →
      (vga_putchar c s).cursor_col = 0 ∧
      (vga_putchar c s).cursor_row = s.cursor_row + 1) ∧
    (∀ c s, 32 ≤ c → c ≤ 126 → s.cursor_col = VGA_WIDTH - 1 →
      s.cursor_row = VGA_HEIGHT - 1 →
      (vga_putchar c s).cursor_col = 0 ∧
      (vga_putchar c s).cursor_row = VGA_HEIGHT - 1 ∧
      (vga_putchar c s).mem =
        (s.mem.set (s.cursor_row * VGA_WIDTH + s.cursor_col)
          (vga_entry c s.current_color)).drop VGA_WIDTH ++
          List.replicate VGA_WIDTH (vga_entry 32 s.current_color)) := by
  refine ⟨vga_init_valid, vga_clear_valid, vga_putchar_valid,
    vga_print_valid, fun s h => vga_putchar_valid 10 s h,
    vga_print_int_valid, fun n s h => vga_print_valid _ s h, ?_, ?_⟩
  · intro c s h32 h126 hcol hrow
    simp only [VGA_WIDTH, VGA_HEIGHT] at hcol hrow
    simp only [vga_putchar, VGA_WIDTH, VGA_HEIGHT]
    rw [if_neg (show ¬ c = 10 by omega), if_neg (show ¬ c = 13 by omega),
      if_neg (show ¬ c = 8 by omega)]
    rw [if_pos (show 80 ≤ s.cursor_col + 1 by omega)]
    rw [if_neg (show ¬ 25 ≤ s.cursor_row + 1 by omega)]
    exact ⟨rfl, rfl⟩
  · intro c s h32 h126 hcol hrow
    simp only [VGA_WIDTH, VGA_HEIGHT] at hcol hrow
    simp only [vga_putchar, vga_scroll, VGA_WIDTH, VGA_HEIGHT]
    rw [if_neg (show ¬ c = 10 by omega), if_neg (show ¬ c = 13 by omega),
      if_neg (show ¬ c = 8 by omega)]
    rw [if_pos (show 80 ≤ s.cursor_col + 1 by omega)]
    rw [if_pos (show 25 ≤ s.cursor_row + 1 by omega)]
    exact ⟨rfl, rfl, rfl⟩

/-- C4 witness: the invariant-preservation conjunct applied to a
printable byte on a freshly initialised console. -/
theorem C4_cursor_invariant_witness :
    cursorValid (vga_init ⟨[], 0, 0, 0⟩) ∧
    cursorValid (vga_putchar 65 (vga_init ⟨[], 0, 0, 0⟩)) :=
  ⟨C4_cursor_invariant.1 _,
    C4_cursor_invariant.2.2.1 65 _ (C4_cursor_invariant.1 _)⟩

/-- C5 (amended): from a cleared screen, writing `cols + 1 = 81`
printable bytes leaves the cursor at column 1 of row 1 with row 0
holding the first 80 characters unscrolled; writing
`rows * cols + 1 = 2001` printable bytes scrolls exactly one row's
worth of content off: the screen then holds characters 81..2001
(rows 0–23 full, character 2001 at the start of row 24 followed by
blanks) with the cursor at column 1 of row 24 — not a single visible
row of content. -/
theorem C5_wrap_and_scroll :
    (∀ cs : List Nat, cs.length = 81 → (∀ c ∈ cs, Printable c) →
      vga_print cs vgaStart = ⟨overlay cs, 1, 1, 7⟩ ∧
      (vga_print cs vgaStart).mem.take 80 =
        (cs.take 80).map (fun c => vga_entry c 7)) ∧
    (∀ cs : List Nat, cs.length = 2001 → (∀ c ∈ cs, Printable c) →
      vga_print cs vgaStart =
        ⟨(cs.drop 80).map (fun c => vga_entry c 7) ++
          List.replicate 79 blank7, 24, 1, 7⟩) := by
  constructor
  · intro cs hlen hp
    have h := vga_print_fill cs hp (by omega)
    rw [hlen] at h
    norm_num at h
    refine ⟨h, ?_⟩
    rw [h]
    show (overlay cs).take 80 = _
    rw [overlay, take_append_of_le 80 _ _ (by simp [hlen]), List.map_take]
  · intro cs hlen hp
    exact vga_print_2001 cs hp hlen

set_option maxRecDepth 1000000 in
/-- C5 counterexample: after 2001 printable bytes every one of the 25
rows still shows content — 25 rows, not the single visible row of
content the claim predicts. -/
theorem C5_single_row_counterexample :
    contentRowCount (vga_print c5List vgaStart).mem = 25 ∧ (25 : Nat) ≠ 1 := by
  have hp : ∀ c ∈ c5List, Printable c := by
    intro c hc
    simp only [c5List, List.mem_map, List.mem_range] at hc
    obtain ⟨i, hi, rfl⟩ := hc
    exact ⟨by omega, by omega⟩
  have h := vga_print_2001 c5List hp (by simp [c5List])
  rw [h]
  exact ⟨by decide, by decide⟩

/-- C5 witness: the 81-byte part evaluated on a concrete printable
stream. -/
theorem C5_wrap_and_scroll_witness :
    c5ShortList.length = 81 ∧
    (vga_print c5ShortList vgaStart = ⟨overlay c5ShortList, 1, 1, 7⟩ ∧
      (vga_print c5ShortList vgaStart).mem.take 80 =
        (c5ShortList.take 80).map (fun c => vga_entry c 7)) :=
  ⟨by decide, C5_wrap_and_scroll.1 c5ShortList (by decide)
    (by
      intro c hc
      simp only [c5ShortList, List.mem_map, List.mem_range] at hc
      obtain ⟨i, hi, rfl⟩ := hc
      exact ⟨by omega, by omega⟩)⟩

/-! ## Input and attribute lemmas -/

theorem kbLineLoop_len (maxLen : Nat) :
    ∀ (input buf out line : List Nat) (n : Nat) (o : List Nat),
      kbLineLoop maxLen buf out input = some (line, n, o) → n = line.length := by
  intro input
  induction input with
  | nil =>
      intro buf out line n o h
      simp [kbLineLoop] at h
  | cons c rest ih =>
      intro buf out line n o h
      simp only [kbLineLoop] at h
      split_ifs at h
      · simp only [Option.some.injEq, Prod.mk.injEq] at h
        obtain ⟨h1, h2, _⟩ := h
        subst h1
        omega
      · exact ih _ _ _ _ _ h
      · exact ih _ _ _ _ _ h
      · exact ih _ _ _ _ _ h
      · exact ih _ _ _ _ _ h

theorem shiftLeft_lor_eq_add (k a b : Nat) (hb : b < 2 ^ k) :
    (a <<< k) ||| b = 2 ^ k * a + b := by
  apply Nat.eq_of_testBit_eq
  intro i
  rw [Nat.testBit_lor, Nat.testBit_shiftLeft, Nat.testBit_mul_pow_two_add a hb i]
  by_cases h : i < k
  · simp [h, show ¬ i ≥ k by omega]
  · have hik : i ≥ k := by omega
    have hb2 : b < 2 ^ i :=
      lt_of_lt_of_le hb (Nat.pow_le_pow_right (by norm_num) hik)
    simp [h, hik, Nat.testBit_lt_two_pow hb2]

/-! ## Claim theorems: console and input -/

/-- C6: in both `read_line` variants, "ab" followed by three
backspaces (one more than stored) and end-of-line returns the empty
line with length 0; a backspace on an empty buffer changes nothing, a
backspace on a non-empty buffer drops exactly the last character, a
byte arriving with the buffer at `max_len - 1` is consumed but neither
stored nor echoed, and every returned length equals the number of
stored characters (so it is never negative). -/
theorem C6_readline_backspace :
    keyboard_readline 64 [97, 98, 8, 8, 8, 10] =
      some ([], 0, [97, 98, 8, 8, 10]) ∧
    keyboard_readline_rpi3 64 [97, 98, 127, 127, 127, 13] =
      some ([], 0, [97, 98, 8, 32, 8, 8, 32, 8, 10]) ∧
    (∀ maxLen out rest, kbLineLoop maxLen [] out (8 :: rest) =
      kbLineLoop maxLen [] out rest) ∧
    (∀ maxLen buf out rest, buf ≠ [] →
      kbLineLoop maxLen buf out (8 :: rest) =
        kbLineLoop maxLen buf.dropLast (out ++ [8]) rest) ∧
    (∀ maxLen buf out c rest, c ≠ 10 → c ≠ 8 → maxLen - 1 ≤ buf.length →
      kbLineLoop maxLen buf out (c :: rest) = kbLineLoop maxLen buf out rest) ∧
    (∀ maxLen out rest c, c = 8 ∨ c = 127 →
      kbLineLoopRpi3 maxLen [] out (c :: rest) =
        kbLineLoopRpi3 maxLen [] out rest) ∧
    (∀ maxLen buf out rest c, c = 8 ∨ c = 127 → buf ≠ [] →
      kbLineLoopRpi3 maxLen buf out (c :: rest) =
        kbLineLoopRpi3 maxLen buf.dropLast (out ++ [8, 32, 8]) rest) ∧
    (∀ maxLen buf out c rest, ¬ (c = 13 ∨ c = 10) → ¬ (c = 8 ∨ c = 127) →
      maxLen - 1 ≤ buf.length →
      kbLineLoopRpi3 maxLen buf out (c :: rest) =
        kbLineLoopRpi3 maxLen buf out rest) ∧
    (∀ maxLen input line n o,
      keyboard_readline maxLen input = some (line, n, o) → n = line.length) := by
  refine ⟨by decide, by decide, ?_, ?_, ?_, ?_, ?_, ?_, ?_⟩
  · intro maxLen out rest
    simp [kbLineLoop]
  · intro maxLen buf out rest hb
    simp [kbLineLoop, List.length_pos, hb]
  · intro maxLen buf out c rest h10 h8 hfull
    simp only [kbLineLoop]
    rw [if_neg h10, if_neg h8, if_neg (by omega)]
  · intro maxLen out rest c hc
    simp only [kbLineLoopRpi3]
    rw [if_neg (by rcases hc with rfl | rfl <;> omega), if_pos hc]
    simp
  · intro maxLen buf out rest c hc hb
    simp only [kbLineLoopRpi3]
    rw [if_neg (by rcases hc with rfl | rfl <;> omega), if_pos hc,
      if_pos (by simp [List.length_pos, hb])]
  · intro maxLen buf out c rest h1 h2 hfull
    simp only [kbLineLoopRpi3]
    rw [if_neg h1, if_neg h2, if_neg (by omega)]
  · intro maxLen input line n o h
    exact kbLineLoop_len maxLen input [] [] line n o h

/-- C6 witness: dropping the last stored character by backspace,
evaluated on a one-character buffer. -/
theorem C6_readline_backspace_witness :
    ([97] : List Nat) ≠ [] ∧
    kbLineLoop 64 [97] [97] (8 :: [10]) =
      kbLineLoop 64 ([97] : List Nat).dropLast ([97] ++ [8]) [10] :=
  ⟨by decide, C6_readline_backspace.2.2.2.1 64 [97] [97] [10] (by decide)⟩

/-- C8: on the framebuffer variant the attribute byte set by
`set_color(fg, bg)` carries `fg` reduced to 4 bits in its foreground
field and `bg` reduced to 3 bits in its background field (bits 4–6);
the serial variant ignores `bg` entirely and maps a foreground index
below 16 to its ANSI escape string. -/
theorem C8_set_color_fields :
    (∀ fg bg s, fg < 256 → bg < 256 →
      (vga_set_color fg bg s).current_color % 16 = fg % 16 ∧
      (vga_set_color fg bg s).current_color / 16 % 8 = bg % 8) ∧
    (∀ fg bg bg2, vga_set_color_rpi3 fg bg = vga_set_color_rpi3 fg bg2) ∧
    (∀ fg bg, fg < 16 → vga_set_color_rpi3 fg bg = ansi_fg.getD fg []) := by
  refine ⟨?_, ?_, ?_⟩
  · intro fg bg s hfg hbg
    have hcc : (vga_set_color fg bg s).current_color =
        (2 ^ 4 * bg + fg % 16) % 256 := by
      simp only [vga_set_color]
      rw [Nat.mod_eq_of_lt hfg, Nat.mod_eq_of_lt hbg]
      rw [show (15 : Nat) = 2 ^ 4 - 1 by norm_num,
        Nat.and_pow_two_sub_one_eq_mod]
      rw [shiftLeft_lor_eq_add 4 bg (fg % 2 ^ 4) (Nat.mod_lt _ (by norm_num))]
      norm_num
    rw [hcc]
    constructor <;> omega
  · intro fg bg bg2
    rfl
  · intro fg bg hfg
    simp only [vga_set_color_rpi3, if_pos hfg]
    interval_cases fg <;> rfl

/-- C8 witness: the field equations at `fg = 0x1F, bg = 9` and the
serial escape for red. -/
theorem C8_set_color_fields_witness :
    (31 : Nat) < 256 ∧ (9 : Nat) < 256 ∧
    ((vga_set_color 31 9 ⟨[], 0, 0, 0⟩).current_color % 16 = 31 % 16 ∧
      (vga_set_color 31 9 ⟨[], 0, 0, 0⟩).current_color / 16 % 8 = 9 % 8) ∧
    (4 : Nat) < 16 ∧ vga_set_color_rpi3 4 9 = ansi_fg.getD 4 [] :=
  ⟨by decide, by decide,
    C8_set_color_fields.1 31 9 ⟨[], 0, 0, 0⟩ (by decide) (by decide),
    by decide, C8_set_color_fields.2.2 4 9 (by decide)⟩

/-- C9: for `n` in 0..99, `print_two_digit(n)` writes exactly two
zero-padded ASCII digit bytes whose decimal value is `n`, on both
variants. -/
theorem C9_print_two_digit (n : Nat) (h : n < 100) :
    ∃ d1 d2, vga_print_int2_digits n = [d1, d2] ∧
      48 ≤ d1 ∧ d1 ≤ 57 ∧ 48 ≤ d2 ∧ d2 ≤ 57 ∧
      (d1 - 48) * 10 + (d2 - 48) = n ∧
      vga_print_int2_rpi3 n = [d1, d2] ∧
      ∀ s, vga_print_int2 n s = vga_print [d1, d2] s := by
  refine ⟨48 + n / 10, 48 + n % 10, rfl, by omega, by omega, by omega,
    by omega, by omega, ?_, fun s => rfl⟩
  simp only [vga_print_int2_rpi3]
  rw [Nat.mod_eq_of_lt (by omega), Nat.mod_eq_of_lt (by omega)]

/-- C9 witness: the round trip at `n = 7` (rendered "07"). -/
theorem C9_print_two_digit_witness :
    (7 : Nat) < 100 ∧
    ∃ d1 d2, vga_print_int2_digits 7 = [d1, d2] ∧
      48 ≤ d1 ∧ d1 ≤ 57 ∧ 48 ≤ d2 ∧ d2 ≤ 57 ∧
      (d1 - 48) * 10 + (d2 - 48) = 7 ∧
      vga_print_int2_rpi3 7 = [d1, d2] ∧
      ∀ s, vga_print_int2 7 s = vga_print [d1, d2] s :=
  ⟨by decide, C9_print_two_digit 7 (by decide)⟩

/-- C10: the UART `read_line` stores and echoes a byte only when its
value is at least 32: any control byte other than CR, LF, BS and DEL is
consumed and leaves buffer, length and display unchanged, even though
`read_char` itself hands back the raw byte unfiltered. -/
theorem C10_serial_control_filter :
    (∀ maxLen buf out c rest, c < 32 → c ≠ 13 → c ≠ 10 → c ≠ 8 → c ≠ 127 →
      kbLineLoopRpi3 maxLen buf out (c :: rest) =
        kbLineLoopRpi3 maxLen buf out rest) ∧
    (∀ maxLen buf out c rest, 32 ≤ c → c ≠ 127 → buf.length < maxLen - 1 →
      kbLineLoopRpi3 maxLen buf out (c :: rest) =
        kbLineLoopRpi3 maxLen (buf ++ [c]) (out ++ [c]) rest) ∧
    (∀ b, keyboard_getchar_rpi3 b = b % 256) := by
  refine ⟨?_, ?_, ?_⟩
  · intro maxLen buf out c rest hlt h13 h10 h8 h127
    simp only [kbLineLoopRpi3]
    rw [if_neg (by omega), if_neg (by omega), if_neg (by omega)]
  · intro maxLen buf out c rest h32 h127 hroom
    simp only [kbLineLoopRpi3]
    rw [if_neg (by omega), if_neg (by omega), if_pos ⟨h32, hroom⟩]
  · intro b
    rw [keyboard_getchar_rpi3, show (255 : Nat) = 2 ^ 8 - 1 by norm_num,
      Nat.and_pow_two_sub_one_eq_mod]

/-- C10 witness: the bell byte 0x07 is consumed with no effect, while
the byte 0x41 is stored and echoed. -/
theorem C10_serial_control_filter_witness :
    ((7 : Nat) < 32 ∧ (7 : Nat) ≠ 13 ∧ (7 : Nat) ≠ 10 ∧ (7 : Nat) ≠ 8 ∧
      (7 : Nat) ≠ 127) ∧
    kbLineLoopRpi3 64 [97] [97] (7 :: [13]) =
      kbLineLoopRpi3 64 [97] [97] [13] :=
  ⟨⟨by decide, by decide, by decide, by decide, by decide⟩,
    C10_serial_control_filter.1 64 [97] [97] 7 [13] (by decide) (by decide)
      (by decide) (by decide) (by decide)⟩

end ExigeOS
